import Mathlib

/-
Verification development for the type-generation pipeline's JSON
serialization test-case injection stage (`pkg/codegen/pipeline`,
`InjectJsonSerializationTests`) and for the test-recording helpers in
`hack/generated/pkg/testcommon/test_context.go`.

The stage code is embedded directly from the source.  The `astmodel`
and `testcases` packages it calls into are not part of the sources at
hand (only their callers are); those definitions are modelled from the
specification and are marked `Modelled from the spec:` in their doc
comments.
-/

namespace Pipeline

/-- Identifier of a type declaration: a qualified name (package group and
version plus a local name), used as the sole key into a type graph. -/
structure TypeName where
  pkg : String
  name : String
deriving DecidableEq, Repr

/-- Modelled from the spec: a synthesized serialization round-trip test-case
description, produced by `testcases.NewJSONSerializationTestCase` from the
enclosing declaration's identifier and the identifier-naming policy. -/
structure TestCase where
  subject : TypeName
  testName : String
deriving DecidableEq, Repr

/-- The closed variant set of the type model (`astmodel.Type`).  Object and
resource types carry their attached test cases (`WithTestCase` appends). -/
inductive AType where
  | primitive (kind : String)
  | enum (base : String) (values : List String)
  | ref (target : TypeName)
  | optional (inner : AType)
  | array (elem : AType)
  | mapT (keyKind : String) (value : AType)
  | flagged (inner : AType) (flag : String)
  | object (props : List (String × AType)) (tests : List TestCase)
  | resource (specT : AType) (statusT : AType) (tests : List TestCase)

/-- A type declaration (`astmodel.TypeDefinition`): an identifier paired
with a type. -/
structure TypeDefinition where
  name : TypeName
  defType : AType

/-- A per-item error: carries the offending declaration's identifier and
the underlying cause, as produced when `VisitDefinition` wraps a handler
failure. -/
structure VisitError where
  id : TypeName
  cause : String
deriving DecidableEq, Repr

/-- Modelled from the spec: `astmodel.IdentifierFactory`, reduced to the
one capability the stage uses — the identifier-naming policy that tries
to produce a legal test name for a declaration (and may fail). -/
structure IdentifierFactory where
  createTestName : TypeName → Option String

/-- The cancellation signal of the `context.Context` value handed to a
stage: `cancelled = true` means `ctx.Err()` would report cancellation. -/
structure GoContext where
  cancelled : Bool
deriving DecidableEq, Repr

/-- Cause message used when the naming policy cannot produce a legal
test name. -/
def failCause (n : TypeName) : String :=
  "cannot produce a legal test name for " ++ n.name

/-- Modelled from the spec: `testcases.NewJSONSerializationTestCase`
synthesizes a round-trip test-case from the enclosing identifier using
the identifier-naming policy; it fails when the policy cannot produce a
legal test name. -/
def NewJSONSerializationTestCase (idf : IdentifierFactory) (n : TypeName) :
    Except String TestCase :=
  match idf.createTestName n with
  | some tn => .ok { subject := n, testName := tn }
  | none => .error (failCause n)

/-- Modelled from the spec: `WithTestCase` attaches a test case to a copy
of an object or resource type (other variants have no such method and are
returned unchanged). -/
def attachTestCase (t : AType) (tc : TestCase) : AType :=
  match t with
  | .object props tests => .object props (tests ++ [tc])
  | .resource sp st tests => .resource sp st (tests ++ [tc])
  | other => other

/-- The composed visitor built by `makeObjectSerializationTestCaseFactory`:
the custom handlers `injectTestCaseIntoResource` / `injectTestCaseIntoObject`
(from the source) override the object and resource variants and do not
recurse; every other variant takes the visitor engine's default behaviour,
modelled from the spec — optional/array/map/flagged rebuild the variant
with the child visited, while primitive, enum and reference are leaves
returned unchanged.  The context value `ctx` is the opaque per-call value
threaded down to every visited node. -/
def visitType (idf : IdentifierFactory) (ctx : TypeName) : AType → Except String AType
  | .object props tests =>
    match NewJSONSerializationTestCase idf ctx with
    | .ok tc => .ok (.object props (tests ++ [tc]))
    | .error e => .error e
  | .resource sp st tests =>
    match NewJSONSerializationTestCase idf ctx with
    | .ok tc => .ok (.resource sp st (tests ++ [tc]))
    | .error e => .error e
  | .optional inner =>
    match visitType idf ctx inner with
    | .ok t => .ok (.optional t)
    | .error e => .error e
  | .array elem =>
    match visitType idf ctx elem with
    | .ok t => .ok (.array t)
    | .error e => .error e
  | .mapT k v =>
    match visitType idf ctx v with
    | .ok t => .ok (.mapT k t)
    | .error e => .error e
  | .flagged inner flag =>
    match visitType idf ctx inner with
    | .ok t => .ok (.flagged t flag)
    | .error e => .error e
  | .primitive k => .ok (.primitive k)
  | .enum b vs => .ok (.enum b vs)
  | .ref tgt => .ok (.ref tgt)

/-- Modelled from the spec: `TypeVisitor.VisitDefinition` visits the
declaration's type and rebuilds the declaration with the same name; a
per-node error is wrapped with the offending declaration's identifier. -/
def VisitDefinition (idf : IdentifierFactory) (d : TypeDefinition) (ctx : TypeName) :
    Except VisitError TypeDefinition :=
  match visitType idf ctx d.defType with
  | .ok t => .ok { name := d.name, defType := t }
  | .error c => .error { id := d.name, cause := c }

/-- `objectSerializationTestCaseFactory.AddTestTo` from the source:
visits the definition, threading the definition's own name as the
per-call context value. -/
def AddTestTo (idf : IdentifierFactory) (d : TypeDefinition) :
    Except VisitError TypeDefinition :=
  VisitDefinition idf d d.name

/-- Go-map insertion for the `result[updated.Name()] = updated` write:
replaces the binding when the key is present, appends otherwise. -/
def mapInsert (k : TypeName) (v : TypeDefinition) :
    List (TypeName × TypeDefinition) → List (TypeName × TypeDefinition)
  | [] => [(k, v)]
  | (k', v') :: rest =>
    if k' = k then (k, v) :: rest else (k', v') :: mapInsert k v rest

/-- Association-list lookup (Go map read). -/
def assocLookup {κ β : Type} [DecidableEq κ] (k : κ) : List (κ × β) → Option β
  | [] => none
  | (k', v) :: rest => if k' = k then some v else assocLookup k rest

/-- The mutable state of the stage closure's loop: the input map binding
`types`, the freshly created `result` map, and the collected `errs`. -/
structure StageState where
  types : List TypeDefinition
  result : List (TypeName × TypeDefinition)
  errs : List VisitError

/-- The `for _, d := range types` loop body of the stage, iterated over
the remaining values of the input map in iteration order: on success the
updated declaration is written into `result` under its name, on failure
the error is appended to `errs`. -/
def injectLoop (idf : IdentifierFactory) :
    List TypeDefinition → StageState → StageState
  | [], s => s
  | d :: ds, s =>
    match AddTestTo idf d with
    | .ok updated =>
      injectLoop idf ds
        { s with result := mapInsert updated.name updated s.result }
    | .error e =>
      injectLoop idf ds { s with errs := s.errs ++ [e] }

/-- `kerrors.NewAggregate`: wraps the collected per-item errors into one
aggregate; nil errors would be dropped, but none are produced here. -/
def newAggregate (errs : List VisitError) : List VisitError := errs

/-- The stage function passed to `MakeLegacyStage` in the source: build
the factory, run the loop over the input graph's values in iteration
order, and either return the aggregate error (when any declaration
failed) or the new graph (when none did).  The `context.Context`
argument is received but never consulted by the body. -/
def stageBody (idf : IdentifierFactory) (_ctx : GoContext)
    (types : List TypeDefinition) :
    Except (List VisitError) (List (TypeName × TypeDefinition)) :=
  let s := injectLoop idf types { types := types, result := [], errs := [] }
  if s.errs.length > 0 then .error (newAggregate s.errs) else .ok s.result

/-- A pipeline stage: unique name, human-readable description, and the
graph-to-graph operation. -/
structure Stage where
  id : String
  description : String
  run : GoContext → List TypeDefinition →
    Except (List VisitError) (List (TypeName × TypeDefinition))

/-- Modelled from the spec: `MakeLegacyStage` packages a name, a
description and a graph transformation function as a `Stage`. -/
def MakeLegacyStage (id description : String)
    (action : GoContext → List TypeDefinition →
      Except (List VisitError) (List (TypeName × TypeDefinition))) : Stage :=
  { id := id, description := description, run := action }

/-- `InjectJsonSerializationTests` from the source. -/
def InjectJsonSerializationTests (idf : IdentifierFactory) : Stage :=
  MakeLegacyStage "jsonTestCases" "Add test cases to verify JSON serialization"
    (stageBody idf)

/-- A declaration is eligible for direct test-case injection when its
type is an object or a resource (the two variants with custom handlers). -/
def isEligible : AType → Bool
  | .object _ _ => true
  | .resource _ _ _ => true
  | _ => false

/-- Whether an object or resource node is reachable along the spine the
composed visitor actually recurses through (optional/array/map/flagged
wrappers); declarations without such a node are returned unchanged. -/
def hasEligibleNode : AType → Bool
  | .object _ _ => true
  | .resource _ _ _ => true
  | .optional inner => hasEligibleNode inner
  | .array elem => hasEligibleNode elem
  | .mapT _ v => hasEligibleNode v
  | .flagged inner _ => hasEligibleNode inner
  | .primitive _ => false
  | .enum _ _ => false
  | .ref _ => false

/-- Whether `AddTestTo` fails on a declaration. -/
def isFail (idf : IdentifierFactory) (d : TypeDefinition) : Bool :=
  match AddTestTo idf d with
  | .ok _ => false
  | .error _ => true

/-- The error of a failing `AddTestTo` call, if any. -/
def errOf (idf : IdentifierFactory) (d : TypeDefinition) : Option VisitError :=
  match AddTestTo idf d with
  | .ok _ => none
  | .error e => some e

/-- Number of declarations of the input graph that fail synthesis. -/
def failCount (idf : IdentifierFactory) (types : List TypeDefinition) : Nat :=
  (types.filter (isFail idf)).length

/-- Whether a stage result is a success. -/
def exceptIsOk {ε α : Type} : Except ε α → Bool
  | .ok _ => true
  | .error _ => false

/-- First declaration of the iteration sequence bearing a given name. -/
def findName (k : TypeName) : List TypeDefinition → Option TypeDefinition
  | [] => none
  | d :: ds => if d.name = k then some d else findName k ds

/-- Observer counting the test cases on the object or resource node sitting
on the visited spine of a type (zero when there is none). -/
def innerTestCount : AType → Nat
  | .object _ tests => tests.length
  | .resource _ _ tests => tests.length
  | .optional inner => innerTestCount inner
  | .array elem => innerTestCount elem
  | .mapT _ v => innerTestCount v
  | .flagged inner _ => innerTestCount inner
  | .primitive _ => 0
  | .enum _ _ => 0
  | .ref _ => 0

/-- A naming policy that always fails. -/
def idfNone : IdentifierFactory := { createTestName := fun _ => none }

/-- A naming policy that always succeeds. -/
def idfSuffix : IdentifierFactory :=
  { createTestName := fun n => some (n.name ++ "_test") }

/-- Example identifiers and declarations used as concrete inputs. -/
def nA : TypeName := { pkg := "pkg", name := "A" }

def nB : TypeName := { pkg := "pkg", name := "B" }

def dObjA : TypeDefinition := { name := nA, defType := .object [] [] }

def dObjB : TypeDefinition := { name := nB, defType := .object [] [] }

/-- A declaration whose type is an optional wrapping an object: not itself
an object or resource declaration, yet rewritten by the stage. -/
def dOptA : TypeDefinition :=
  { name := nA, defType := .optional (.object [] []) }

/-- The value the stage actually produces for `dOptA` under `idfSuffix`. -/
def dOptAInjected : TypeDefinition :=
  { name := nA,
    defType := .optional (.object []
      [{ subject := nA, testName := "A_test" }]) }

def errA : VisitError := { id := nA, cause := failCause nA }

def errB : VisitError := { id := nB, cause := failCause nB }

def ctxLive : GoContext := { cancelled := false }

def ctxCancelled : GoContext := { cancelled := true }

/-- The loop state at entry of the stage body: the input binding, an empty
result map and no errors. -/
def initState (types : List TypeDefinition) : StageState :=
  { types := types, result := [], errs := [] }

/-- The result map built by a full run of the loop. -/
def stageResult (idf : IdentifierFactory) (types : List TypeDefinition) :
    List (TypeName × TypeDefinition) :=
  (injectLoop idf types (initState types)).result

end Pipeline

namespace TestCommon

/-- The fixed replacement for ISO8601 datetimes in `hideDates`. -/
def dateRepl : List Char := "2001-02-03T04:05:06Z".data

/-- The fixed replacement for SSH keys in `hideSSHKeys`. -/
def sshRepl : List Char := "ssh-rsa {KEY}".data

/-- Matching the bare literal `Z` that closes the date pattern when the
optional fractional-seconds group is not taken. -/
def matchLiteralZ : List Char → Option (List Char)
  | 'Z' :: r => some r
  | _ => none

/-- The tail `(.\d+)?Z` of the date pattern at the current position, with
the leftmost-first greedy semantics of Go regexp: the optional group is
preferred; `.` matches any character except a newline; `\d+` greedily takes
the maximal digit run (a shorter run would be followed by a digit, never by
`Z`, so only the maximal run can close the group).  Returns the remainder
after the match. -/
def matchDateTail (r : List Char) : Option (List Char) :=
  match r with
  | c :: r1 =>
    if c != '\n' && !(r1.takeWhile Char.isDigit).isEmpty then
      match r1.dropWhile Char.isDigit with
      | 'Z' :: r3 => some r3
      | _ => matchLiteralZ r
    else matchLiteralZ r
  | [] => none

/-- The date pattern of `dateMatcher`,
regexp `\d{4}-\d{2}-\d{2}T\d{2}:\d{2}:\d{2}(.\d+)?Z`, anchored at the
current position; returns the remainder after the match. -/
def matchDateAt : List Char → Option (List Char)
  | y1 :: y2 :: y3 :: y4 :: c1 :: m1 :: m2 :: c2 :: d1 :: d2 :: ct ::
      h1 :: h2 :: c3 :: i1 :: i2 :: c4 :: s1 :: s2 :: rest =>
    if y1.isDigit && y2.isDigit && y3.isDigit && y4.isDigit && c1 == '-' &&
        m1.isDigit && m2.isDigit && c2 == '-' && d1.isDigit && d2.isDigit &&
        ct == 'T' && h1.isDigit && h2.isDigit && c3 == ':' && i1.isDigit &&
        i2.isDigit && c4 == ':' && s1.isDigit && s2.isDigit then
      matchDateTail rest
    else
      none
  | _ => none

/-- Left-to-right scan of `ReplaceAllLiteralString` for the date pattern:
at each position the leftmost match is replaced and scanning resumes after
it.  The fuel argument is bounded by the input length; every step consumes
at least one character, so fuel equal to the length is exact. -/
def hideDatesFuel : Nat → List Char → List Char
  | 0, s => s
  | _ + 1, [] => []
  | fuel + 1, c :: rest =>
    match matchDateAt (c :: rest) with
    | some r => dateRepl ++ hideDatesFuel fuel r
    | none => c :: hideDatesFuel fuel rest

/-- `hideDates` replaces all ISO8601 datetimes with a fixed value. -/
def hideDates (s : String) : String :=
  { data := hideDatesFuel s.data.length s.data }

/-- The character class `[0-9a-zA-Z+/=]` of `sshKeyMatcher`. -/
def sshClassChar (c : Char) : Bool :=
  c.isAlphanum || c == '+' || c == '/' || c == '='

/-- The SSH-key pattern of `sshKeyMatcher`, regexp `ssh-rsa [0-9a-zA-Z+/=]+`,
anchored at the current position; the greedy `+` takes the maximal nonempty
class run.  Returns the remainder after the match. -/
def matchSshAt : List Char → Option (List Char)
  | 's' :: 's' :: 'h' :: '-' :: 'r' :: 's' :: 'a' :: ' ' :: r =>
    if (r.takeWhile sshClassChar).isEmpty then none
    else some (r.dropWhile sshClassChar)
  | _ => none

/-- Left-to-right replacement scan for the SSH-key pattern. -/
def hideSSHKeysFuel : Nat → List Char → List Char
  | 0, s => s
  | _ + 1, [] => []
  | fuel + 1, c :: rest =>
    match matchSshAt (c :: rest) with
    | some r => sshRepl ++ hideSSHKeysFuel fuel r
    | none => c :: hideSSHKeysFuel fuel rest

/-- `hideSSHKeys` hides anything that looks like SSH keys. -/
def hideSSHKeys (s : String) : String :=
  { data := hideSSHKeysFuel s.data.length s.data }

/-- `hideRecordingData` from the source: hide dates, then hide SSH keys. -/
def hideRecordingData (s : String) : String :=
  hideSSHKeys (hideDates s)

/-- Scan of `strings.ReplaceAll` for a non-empty pattern: replace each
leftmost non-overlapping occurrence and resume after it.  Fuel as above. -/
def replaceScanFuel (oldp newp : List Char) : Nat → List Char → List Char
  | 0, s => s
  | _ + 1, [] => []
  | fuel + 1, c :: rest =>
    if oldp.isPrefixOf (c :: rest) then
      newp ++ replaceScanFuel oldp newp fuel (List.drop (oldp.length - 1) rest)
    else
      c :: replaceScanFuel oldp newp fuel rest

/-- `strings.ReplaceAll s old new`: all non-overlapping instances of `old`
in `s` are replaced by `new`; an empty `old` matches before every character
and at the end. -/
def stringsReplaceAll (s oldS newS : String) : String :=
  if oldS.data.isEmpty then
    { data := newS.data ++ s.data.foldr (fun c acc => c :: (newS.data ++ acc)) [] }
  else
    { data := replaceScanFuel oldS.data newS.data s.data.length s.data }

/-- `uuid.Nil.String()`. -/
def nilUUID : String := "00000000-0000-0000-0000-000000000000"

/-- The `hideSubID` closure of the save filter: replace every occurrence of
the real subscription ID with the nil UUID. -/
def hideSubID (subscriptionID s : String) : String :=
  stringsReplaceAll s subscriptionID nilUUID

/-- A stored cassette request. -/
structure CassetteRequest where
  body : String
  url : String
  headers : List (String × List String)

/-- A stored cassette response. -/
structure CassetteResponse where
  body : String
  headers : List (String × List String)

/-- A stored cassette interaction. -/
structure Interaction where
  request : CassetteRequest
  response : CassetteResponse

/-- Go `delete(headers, k)`. -/
def headerDel (k : String) (h : List (String × List String)) :
    List (String × List String) :=
  h.filter (fun kv => !(kv.1 == k))

/-- Rewriting every header value with a function, as the save filter's
nested loops do. -/
def headerMapValues (f : String → String) (h : List (String × List String)) :
    List (String × List String) :=
  h.map (fun kv => (kv.1, kv.2.map f))

/-- The save filter registered with `r.AddSaveFilter` in `createRecorder`:
bodies are subscription-scrubbed then recording-scrubbed, the request URL
is subscription-scrubbed, all header values are subscription-scrubbed, the
request's Authorization and User-Agent headers are deleted, and the listed
response bookkeeping headers are deleted. -/
def saveFilter (subscriptionID : String) (i : Interaction) : Interaction :=
  { request :=
      { body := hideRecordingData (hideSubID subscriptionID i.request.body),
        url := hideSubID subscriptionID i.request.url,
        headers :=
          headerDel "User-Agent" (headerDel "Authorization"
            (headerMapValues (hideSubID subscriptionID) i.request.headers)) },
    response :=
      { body := hideRecordingData (hideSubID subscriptionID i.response.body),
        headers :=
          headerDel "Date" (headerDel "X-Ms-Routing-Request-Id"
            (headerDel "X-Ms-Request-Id"
              (headerDel "X-Ms-Ratelimit-Remaining-Subscription-Writes"
                (headerDel "X-Ms-Ratelimit-Remaining-Subscription-Reads"
                  (headerDel "X-Ms-Correlation-Request-Id"
                    (headerMapValues (hideSubID subscriptionID)
                      i.response.headers)))))) } }

/-- `PerTestContext.MakeARMId` from the source; the two `panic` calls are
modelled as `none`. -/
def MakeARMId (azureSubscription resourceGroup provider : String)
    (params : List String) : Option String :=
  if params.length = 0 then none
  else if params.length % 2 != 0 then none
  else some ("/subscriptions/" ++ azureSubscription ++ "/resourceGroups/" ++
    resourceGroup ++ "/providers/" ++ provider ++ "/" ++
    String.intercalate "/" params)

/-- A concrete interaction whose response carries an Authorization header. -/
def leakInteraction : Interaction :=
  { request :=
      { body := "b", url := "u",
        headers := [("Authorization", ["Bearer token"])] },
    response :=
      { body := "",
        headers := [("Authorization", ["leak"])] } }

end TestCommon

namespace Pipeline

theorem AddTestTo_ok_name {idf : IdentifierFactory} {d u : TypeDefinition}
    (h : AddTestTo idf d = .ok u) : u.name = d.name := by
  unfold AddTestTo VisitDefinition at h
  cases hv : visitType idf d.name d.defType with
  | ok t =>
    rw [hv] at h
    simp at h
    rw [← h]
  | error c =>
    rw [hv] at h
    simp at h

theorem AddTestTo_error_id {idf : IdentifierFactory} {d : TypeDefinition}
    {e : VisitError} (h : AddTestTo idf d = .error e) : e.id = d.name := by
  unfold AddTestTo VisitDefinition at h
  cases hv : visitType idf d.name d.defType with
  | ok t =>
    rw [hv] at h
    simp at h
  | error c =>
    rw [hv] at h
    simp at h
    rw [← h]

theorem injectLoop_types (idf : IdentifierFactory) :
    ∀ (l : List TypeDefinition) (s : StageState),
      (injectLoop idf l s).types = s.types := by
  intro l
  induction l with
  | nil => intro s; rfl
  | cons d ds ih =>
    intro s
    cases h : AddTestTo idf d <;> simp [injectLoop, h, ih]

theorem injectLoop_errs (idf : IdentifierFactory) :
    ∀ (l : List TypeDefinition) (s : StageState),
      (injectLoop idf l s).errs = s.errs ++ l.filterMap (errOf idf) := by
  intro l
  induction l with
  | nil => intro s; simp [injectLoop]
  | cons d ds ih =>
    intro s
    cases h : AddTestTo idf d with
    | ok u => simp [injectLoop, h, ih, errOf]
    | error e => simp [injectLoop, h, ih, errOf]

theorem length_filterMap_errOf (idf : IdentifierFactory) :
    ∀ l : List TypeDefinition,
      (l.filterMap (errOf idf)).length = failCount idf l := by
  intro l
  induction l with
  | nil => rfl
  | cons d ds ih =>
    cases h : AddTestTo idf d with
    | ok u =>
      simp [List.filterMap_cons, errOf, h, failCount, isFail] at ih ⊢
      exact ih
    | error e =>
      simp [List.filterMap_cons, errOf, h, failCount, isFail] at ih ⊢
      exact ih

theorem assocLookup_mapInsert_self (k : TypeName) (v : TypeDefinition)
    (r : List (TypeName × TypeDefinition)) :
    assocLookup k (mapInsert k v r) = some v := by
  induction r with
  | nil => simp [mapInsert, assocLookup]
  | cons p rest ih =>
    by_cases h : p.1 = k
    · simp [mapInsert, h, assocLookup]
    · simp [mapInsert, h, assocLookup, ih]

theorem assocLookup_mapInsert_ne (k k' : TypeName) (v : TypeDefinition)
    (r : List (TypeName × TypeDefinition)) (h : k ≠ k') :
    assocLookup k' (mapInsert k v r) = assocLookup k' r := by
  induction r with
  | nil => simp [mapInsert, assocLookup, h]
  | cons p rest ih =>
    by_cases hp : p.1 = k
    · simp [mapInsert, hp, assocLookup, h]
    · simp [mapInsert, hp, assocLookup, ih]

theorem injectLoop_lookup_notmem (idf : IdentifierFactory) (k : TypeName) :
    ∀ (l : List TypeDefinition) (s : StageState),
      (∀ d ∈ l, d.name ≠ k) →
      assocLookup k (injectLoop idf l s).result = assocLookup k s.result := by
  intro l
  induction l with
  | nil => intro s _; rfl
  | cons d ds ih =>
    intro s hne
    cases h : AddTestTo idf d with
    | ok u =>
      have hn : u.name = d.name := AddTestTo_ok_name h
      have hd : d.name ≠ k := hne d (by simp)
      simp only [injectLoop, h]
      rw [ih _ (fun x hx => hne x (by simp [hx]))]
      exact assocLookup_mapInsert_ne _ _ _ _ (by rw [hn]; exact hd)
    | error e =>
      simp only [injectLoop, h]
      exact ih _ (fun x hx => hne x (by simp [hx]))

theorem injectLoop_lookup (idf : IdentifierFactory) (k : TypeName) :
    ∀ (l : List TypeDefinition) (s : StageState),
      (l.map TypeDefinition.name).Nodup →
      assocLookup k (injectLoop idf l s).result =
        (match findName k l with
         | some d =>
           (match AddTestTo idf d with
            | .ok u => some u
            | .error _ => assocLookup k s.result)
         | none => assocLookup k s.result) := by
  intro l
  induction l with
  | nil => intro s _; rfl
  | cons d ds ih =>
    intro s hnd
    have hnd' : (ds.map TypeDefinition.name).Nodup :=
      (List.nodup_cons.mp hnd).2
    have hdnotin : d.name ∉ ds.map TypeDefinition.name :=
      (List.nodup_cons.mp hnd).1
    by_cases hk : d.name = k
    · subst hk
      have hds : ∀ x ∈ ds, x.name ≠ d.name := by
        intro x hx hcontra
        exact hdnotin (hcontra ▸ List.mem_map_of_mem TypeDefinition.name hx)
      cases h : AddTestTo idf d with
      | ok u =>
        have hn : u.name = d.name := AddTestTo_ok_name h
        simp only [injectLoop, h]
        rw [injectLoop_lookup_notmem idf d.name ds _ hds]
        simp [findName, hn, assocLookup_mapInsert_self, h]
      | error e =>
        simp only [injectLoop, h]
        rw [injectLoop_lookup_notmem idf d.name ds _ hds]
        simp [findName, h]
    · cases h : AddTestTo idf d with
      | ok u =>
        have hn : u.name = d.name := AddTestTo_ok_name h
        have hmi : assocLookup k (mapInsert u.name u s.result) =
            assocLookup k s.result :=
          assocLookup_mapInsert_ne _ _ _ _ (by rw [hn]; exact hk)
        simp only [injectLoop, h]
        rw [ih _ hnd']
        simp only [findName, if_neg hk]
        cases hf : findName k ds with
        | some d' =>
          cases hf2 : AddTestTo idf d' with
          | ok u' => simp [hf, hf2]
          | error e' => simp [hf, hf2, hmi]
        | none => simp [hf, hmi]
      | error e =>
        simp only [injectLoop, h]
        rw [ih _ hnd']
        simp only [findName, if_neg hk]

theorem findName_eq_none (k : TypeName) :
    ∀ l : List TypeDefinition,
      findName k l = none ↔ ∀ d ∈ l, d.name ≠ k := by
  intro l
  induction l with
  | nil => simp [findName]
  | cons d ds ih =>
    by_cases h : d.name = k
    · simp [findName, h]
    · simp [findName, h, ih]

theorem findName_eq_some {k : TypeName} :
    ∀ {l : List TypeDefinition} {d : TypeDefinition},
      findName k l = some d → d ∈ l ∧ d.name = k := by
  intro l
  induction l with
  | nil => intro d h; simp [findName] at h
  | cons d0 ds ih =>
    intro d h
    by_cases h0 : d0.name = k
    · simp [findName, h0] at h
      subst h
      exact ⟨by simp, h0⟩
    · simp [findName, h0] at h
      obtain ⟨hm, hn⟩ := ih h
      exact ⟨by simp [hm], hn⟩

theorem findName_perm {l₁ l₂ : List TypeDefinition}
    (hp : l₁.Perm l₂) (hnd : (l₁.map TypeDefinition.name).Nodup)
    (k : TypeName) : findName k l₁ = findName k l₂ := by
  cases h1 : findName k l₁ with
  | none =>
    cases h2 : findName k l₂ with
    | none => rfl
    | some d =>
      obtain ⟨hm, hn⟩ := findName_eq_some h2
      exact absurd hn
        (((findName_eq_none k l₁).mp h1) d (hp.mem_iff.mpr hm))
  | some d =>
    obtain ⟨hm, hn⟩ := findName_eq_some h1
    cases h2 : findName k l₂ with
    | none =>
      exact absurd hn
        (((findName_eq_none k l₂).mp h2) d (hp.mem_iff.mp hm))
    | some d' =>
      obtain ⟨hm', hn'⟩ := findName_eq_some h2
      have : d = d' :=
        List.inj_on_of_nodup_map hnd hm (hp.mem_iff.mpr hm')
          (by rw [hn, hn'])
      rw [this]

theorem visitType_eligible (idf : IdentifierFactory) (ctx : TypeName)
    (t : AType) (h : isEligible t = true) :
    visitType idf ctx t =
      (match NewJSONSerializationTestCase idf ctx with
       | .ok tc => .ok (attachTestCase t tc)
       | .error e => .error e) := by
  cases t <;> simp [isEligible] at h <;>
    cases hm : NewJSONSerializationTestCase idf ctx <;>
      simp [visitType, attachTestCase, hm]

theorem visitType_no_eligible (idf : IdentifierFactory) (ctx : TypeName) :
    ∀ t : AType, hasEligibleNode t = false → visitType idf ctx t = .ok t
  | .primitive _, _ => rfl
  | .enum _ _, _ => rfl
  | .ref _, _ => rfl
  | .optional inner, h => by
    have hi := visitType_no_eligible idf ctx inner
      (by simpa [hasEligibleNode] using h)
    simp [visitType, hi]
  | .array elem, h => by
    have hi := visitType_no_eligible idf ctx elem
      (by simpa [hasEligibleNode] using h)
    simp [visitType, hi]
  | .mapT _ v, h => by
    have hi := visitType_no_eligible idf ctx v
      (by simpa [hasEligibleNode] using h)
    simp [visitType, hi]
  | .flagged inner _, h => by
    have hi := visitType_no_eligible idf ctx inner
      (by simpa [hasEligibleNode] using h)
    simp [visitType, hi]
  | .object _ _, h => by simp [hasEligibleNode] at h
  | .resource _ _ _, h => by simp [hasEligibleNode] at h

theorem AddTestTo_eligible (idf : IdentifierFactory) {d : TypeDefinition}
    (h : isEligible d.defType = true) :
    AddTestTo idf d =
      (match idf.createTestName d.name with
       | some tn => .ok { name := d.name,
                          defType := attachTestCase d.defType
                            { subject := d.name, testName := tn } }
       | none => .error { id := d.name, cause := failCause d.name }) := by
  unfold AddTestTo VisitDefinition
  rw [visitType_eligible idf d.name d.defType h]
  unfold NewJSONSerializationTestCase
  cases idf.createTestName d.name <;> simp

theorem AddTestTo_no_eligible (idf : IdentifierFactory) {d : TypeDefinition}
    (h : hasEligibleNode d.defType = false) : AddTestTo idf d = .ok d := by
  unfold AddTestTo VisitDefinition
  rw [visitType_no_eligible idf d.name d.defType h]

theorem errOf_some {idf : IdentifierFactory} {d : TypeDefinition}
    {e : VisitError} (h : errOf idf d = some e) :
    AddTestTo idf d = .error e := by
  unfold errOf at h
  cases ha : AddTestTo idf d with
  | ok u => rw [ha] at h; simp at h
  | error e' => rw [ha] at h; simp at h; rw [h]

theorem failCount_pos_of_mem {idf : IdentifierFactory} {d : TypeDefinition}
    {types : List TypeDefinition} (hm : d ∈ types)
    (hf : isFail idf d = true) : 1 ≤ failCount idf types :=
  List.length_pos_of_mem (List.mem_filter.mpr ⟨hm, hf⟩)

theorem run_eq_error (idf : IdentifierFactory) (c : GoContext)
    (types : List TypeDefinition) (h : 1 ≤ failCount idf types) :
    (InjectJsonSerializationTests idf).run c types =
      .error (types.filterMap (errOf idf)) := by
  show stageBody idf c types = _
  simp only [stageBody]
  rw [injectLoop_errs]
  simp only [List.nil_append]
  rw [if_pos]
  · rfl
  · rw [length_filterMap_errOf]
    omega

theorem run_eq_ok (idf : IdentifierFactory) (c : GoContext)
    (types : List TypeDefinition) (h : failCount idf types = 0) :
    (InjectJsonSerializationTests idf).run c types =
      .ok (stageResult idf types) := by
  show stageBody idf c types = _
  simp only [stageBody]
  rw [injectLoop_errs]
  simp only [List.nil_append]
  rw [if_neg]
  · rfl
  · rw [length_filterMap_errOf]
    omega

theorem stageResult_lookup (idf : IdentifierFactory)
    (types : List TypeDefinition)
    (hnd : (types.map TypeDefinition.name).Nodup) (k : TypeName) :
    assocLookup k (stageResult idf types) =
      (match findName k types with
       | some d =>
         (match AddTestTo idf d with
          | .ok u => some u
          | .error _ => none)
       | none => none) := by
  unfold stageResult
  rw [injectLoop_lookup idf k types (initState types) hnd]
  cases hf : findName k types with
  | some d =>
    cases h2 : AddTestTo idf d with
    | ok u => simp [hf, h2]
    | error e => simp [hf, h2, initState, assocLookup]
  | none => simp [hf, initState, assocLookup]

theorem findName_self {l : List TypeDefinition} {d : TypeDefinition}
    (hnd : (l.map TypeDefinition.name).Nodup) (hm : d ∈ l) :
    findName d.name l = some d := by
  induction l with
  | nil => cases hm
  | cons d0 ds ih =>
    have hnd' := (List.nodup_cons.mp hnd).2
    have h0 := (List.nodup_cons.mp hnd).1
    rcases List.mem_cons.mp hm with he | hm'
    · subst he
      simp [findName]
    · by_cases hname : d0.name = d.name
      · rw [hname] at h0
        exact absurd (List.mem_map_of_mem TypeDefinition.name hm') h0
      · simp [findName, hname, ih hnd' hm']

theorem failCount_perm {idf : IdentifierFactory}
    {l1 l2 : List TypeDefinition} (hp : l1.Perm l2) :
    failCount idf l1 = failCount idf l2 :=
  (hp.filter (isFail idf)).length_eq

/-- C1 (counterexample): the claim's zero-failure half fails on the code.
With a naming policy that always succeeds (so no declaration fails
synthesis), the declaration whose type is an optional wrapping an object —
neither a resource nor an object declaration — is not returned unchanged:
the visitor's default recursion reaches the nested object and attaches a
test case to it. -/
theorem c1_fail_closed_counterexample :
    failCount idfSuffix [dOptA] = 0 ∧
    isEligible dOptA.defType = false ∧
    (InjectJsonSerializationTests idfSuffix).run ctxLive [dOptA] =
      .ok [(nA, dOptAInjected)] ∧
    dOptAInjected ≠ dOptA := by
  refine ⟨rfl, rfl, rfl, fun hcontra => ?_⟩
  have hob := congrArg (fun d => innerTestCount d.defType) hcontra
  simp [dOptAInjected, dOptA, innerTestCount] at hob

/-- C1 (amended): the stage is fail-closed.  If k >= 1 declarations fail
synthesis the stage returns no graph and one aggregate error holding
exactly k per-item errors.  If k = 0 it returns a graph in which every
declaration whose type is an object or resource carries its original
content plus the synthesized test case, and every declaration whose type
contains no object or resource node on the visited spine is unchanged;
declarations that merely wrap a nested object or resource are, however,
also rewritten (see the counterexample). -/
theorem c1_amended_fail_closed (idf : IdentifierFactory) (c : GoContext)
    (types : List TypeDefinition)
    (hnd : (types.map TypeDefinition.name).Nodup) :
    (1 ≤ failCount idf types →
      ∃ es, (InjectJsonSerializationTests idf).run c types = .error es ∧
        es.length = failCount idf types) ∧
    (failCount idf types = 0 →
      ∃ g, (InjectJsonSerializationTests idf).run c types = .ok g ∧
        (∀ d ∈ types, isEligible d.defType = true →
          ∃ tn, idf.createTestName d.name = some tn ∧
            assocLookup d.name g =
              some { name := d.name,
                     defType := attachTestCase d.defType
                       { subject := d.name, testName := tn } }) ∧
        (∀ d ∈ types, hasEligibleNode d.defType = false →
          assocLookup d.name g = some d)) := by
  constructor
  · intro h1
    exact ⟨types.filterMap (errOf idf), run_eq_error idf c types h1,
      length_filterMap_errOf idf types⟩
  · intro h0
    refine ⟨stageResult idf types, run_eq_ok idf c types h0, ?_, ?_⟩
    · intro d hm he
      cases hct : idf.createTestName d.name with
      | none =>
        exfalso
        have hfail : isFail idf d = true := by
          simp [isFail, AddTestTo_eligible idf he, hct]
        have := failCount_pos_of_mem hm hfail
        omega
      | some tn =>
        refine ⟨tn, rfl, ?_⟩
        rw [stageResult_lookup idf types hnd d.name, findName_self hnd hm]
        simp only [AddTestTo_eligible idf he, hct]
    · intro d hm he
      rw [stageResult_lookup idf types hnd d.name, findName_self hnd hm]
      simp only [AddTestTo_no_eligible idf he]

/-- Witness for the amended C1 theorem at a concrete failing input. -/
theorem c1_amended_fail_closed_witness :
    ∃ es, (InjectJsonSerializationTests idfNone).run ctxLive [dObjA] =
        .error es ∧
      es.length = failCount idfNone [dObjA] :=
  (c1_amended_fail_closed idfNone ctxLive [dObjA] (by decide)).1 (by decide)

/-- C2 (counterexample): two iteration orders of the same two-declaration
graph (the lists are permutations of one another) produce aggregate errors
listing the same per-item errors in different orders, so the stage's error
report depends on the map iteration order, which is not sorted by
identifier. -/
theorem c2_determinism_counterexample :
    List.Perm [dObjA, dObjB] [dObjB, dObjA] ∧
    (InjectJsonSerializationTests idfNone).run ctxLive [dObjA, dObjB] =
      .error [errA, errB] ∧
    (InjectJsonSerializationTests idfNone).run ctxLive [dObjB, dObjA] =
      .error [errB, errA] ∧
    [errA, errB] ≠ [errB, errA] := by
  refine ⟨List.Perm.swap dObjB dObjA [], rfl, rfl, ?_⟩
  decide

/-- C2 (amended): the stage is deterministic up to iteration order in the
following sense — for two iteration orders of the same graph the runs
succeed or fail together; on success the output graphs are equal as maps
(pointwise equal lookups); on failure the aggregate errors hold the same
per-item errors as multisets, though not necessarily in the same order. -/
theorem c2_amended_determinism (idf : IdentifierFactory) (cA cB : GoContext)
    (l1 l2 : List TypeDefinition) (hp : l1.Perm l2)
    (hnd : (l1.map TypeDefinition.name).Nodup) :
    (∀ es1 es2, (InjectJsonSerializationTests idf).run cA l1 = .error es1 →
      (InjectJsonSerializationTests idf).run cB l2 = .error es2 →
      es1.Perm es2) ∧
    (∀ g1 g2, (InjectJsonSerializationTests idf).run cA l1 = .ok g1 →
      (InjectJsonSerializationTests idf).run cB l2 = .ok g2 →
      ∀ k, assocLookup k g1 = assocLookup k g2) ∧
    exceptIsOk ((InjectJsonSerializationTests idf).run cA l1) =
      exceptIsOk ((InjectJsonSerializationTests idf).run cB l2) := by
  have hnd2 : (l2.map TypeDefinition.name).Nodup :=
    ((hp.map TypeDefinition.name).nodup_iff).mp hnd
  have hfc : failCount idf l1 = failCount idf l2 := failCount_perm hp
  refine ⟨?_, ?_, ?_⟩
  · intro es1 es2 h1 h2
    by_cases hz : failCount idf l1 = 0
    · rw [run_eq_ok idf cA l1 hz] at h1
      exact absurd h1 (by simp)
    · have hge : 1 ≤ failCount idf l1 := Nat.one_le_iff_ne_zero.mpr hz
      have hge2 : 1 ≤ failCount idf l2 := by omega
      rw [run_eq_error idf cA l1 hge] at h1
      rw [run_eq_error idf cB l2 hge2] at h2
      injection h1 with h1'
      injection h2 with h2'
      rw [← h1', ← h2']
      exact List.Perm.filterMap (errOf idf) hp
  · intro g1 g2 h1 h2 k
    by_cases hz : failCount idf l1 = 0
    · have hz2 : failCount idf l2 = 0 := by omega
      rw [run_eq_ok idf cA l1 hz] at h1
      rw [run_eq_ok idf cB l2 hz2] at h2
      injection h1 with h1'
      injection h2 with h2'
      rw [← h1', ← h2',
        stageResult_lookup idf l1 hnd k, stageResult_lookup idf l2 hnd2 k,
        findName_perm hp hnd k]
    · have hge : 1 ≤ failCount idf l1 := Nat.one_le_iff_ne_zero.mpr hz
      rw [run_eq_error idf cA l1 hge] at h1
      exact absurd h1 (by simp)
  · by_cases hz : failCount idf l1 = 0
    · rw [run_eq_ok idf cA l1 hz, run_eq_ok idf cB l2 (by omega)]
      rfl
    · have hge : 1 ≤ failCount idf l1 := Nat.one_le_iff_ne_zero.mpr hz
      rw [run_eq_error idf cA l1 hge, run_eq_error idf cB l2 (by omega)]
      rfl

/-- Witness for the amended C2 theorem: the two error reports of the
concrete counterexample runs are multiset-equal. -/
theorem c2_amended_determinism_witness :
    List.Perm [errA, errB] [errB, errA] :=
  (c2_amended_determinism idfNone ctxLive ctxLive [dObjA, dObjB]
      [dObjB, dObjA] (List.Perm.swap dObjB dObjA []) (by decide)).1
    [errA, errB] [errB, errA] rfl rfl

/-- C3: per-item errors never cause fail-fast behaviour.  The loop's
collected error list is exactly the list of errors of all failing
declarations in iteration order — every declaration is attempted whatever
happened before it — every failing declaration's error reaches the
collected list, and every succeeding declaration's update reaches the
result map. -/
theorem c3_no_fail_fast (idf : IdentifierFactory)
    (types : List TypeDefinition)
    (hnd : (types.map TypeDefinition.name).Nodup) :
    (injectLoop idf types (initState types)).errs =
      types.filterMap (errOf idf) ∧
    (∀ d ∈ types, ∀ e, AddTestTo idf d = .error e →
      e ∈ (injectLoop idf types (initState types)).errs) ∧
    (∀ d ∈ types, ∀ u, AddTestTo idf d = .ok u →
      assocLookup d.name (stageResult idf types) = some u) := by
  refine ⟨?_, ?_, ?_⟩
  · rw [injectLoop_errs]
    simp [initState]
  · intro d hm e he
    rw [injectLoop_errs]
    simp only [initState, List.nil_append]
    exact List.mem_filterMap.mpr ⟨d, hm, by simp [errOf, he]⟩
  · intro d hm u hu
    rw [stageResult_lookup idf types hnd d.name, findName_self hnd hm]
    simp only [hu]

/-- Witness for C3 at a concrete input: the failing declaration's error is
in the collected list. -/
theorem c3_no_fail_fast_witness :
    errA ∈ (injectLoop idfNone [dObjA] (initState [dObjA])).errs :=
  (c3_no_fail_fast idfNone [dObjA] (by decide)).2.1 dObjA
    (List.mem_singleton.mpr rfl) errA rfl

/-- C4: every per-item error in the stage's aggregate error is recorded
against the failing declaration's identifier: it stems from a declaration
of the input graph whose `AddTestTo` call failed with exactly that error,
and it carries that declaration's name. -/
theorem c4_errors_carry_identifier (idf : IdentifierFactory) (c : GoContext)
    (types : List TypeDefinition) (es : List VisitError)
    (h : (InjectJsonSerializationTests idf).run c types = .error es) :
    ∀ e ∈ es, ∃ d ∈ types, e.id = d.name ∧ AddTestTo idf d = .error e := by
  intro e he
  by_cases hz : failCount idf types = 0
  · rw [run_eq_ok idf c types hz] at h
    exact absurd h (by simp)
  · have hge : 1 ≤ failCount idf types := Nat.one_le_iff_ne_zero.mpr hz
    rw [run_eq_error idf c types hge] at h
    injection h with h'
    rw [← h'] at he
    obtain ⟨d, hm, hd⟩ := List.mem_filterMap.mp he
    have herr : AddTestTo idf d = .error e := errOf_some hd
    exact ⟨d, hm, AddTestTo_error_id herr, herr⟩

/-- Witness for C4 at a concrete failing input. -/
theorem c4_errors_carry_identifier_witness :
    ∃ d ∈ [dObjA], errA.id = d.name ∧ AddTestTo idfNone d = .error errA :=
  c4_errors_carry_identifier idfNone ctxLive [dObjA] [errA] rfl errA
    (List.mem_singleton.mpr rfl)

/-- C5 (counterexample): the stage never consults the cancellation signal.
Run with an already-cancelled context it still processes the declaration
and surfaces a full graph, exactly as an uncancelled run does, instead of
stopping and reporting cancellation. -/
theorem c5_cancellation_counterexample :
    (InjectJsonSerializationTests idfSuffix).run ctxCancelled [dObjA] =
      .ok [(nA, { name := nA,
                  defType := .object []
                    [{ subject := nA, testName := "A_test" }] })] ∧
    (InjectJsonSerializationTests idfSuffix).run ctxCancelled [dObjA] =
      (InjectJsonSerializationTests idfSuffix).run ctxLive [dObjA] :=
  ⟨rfl, rfl⟩

/-- C5 (amended): the stage ignores the context entirely — its result is
identical for any two context values, so cancellation is never checked
between declarations, never reported distinctly, and cancelled runs
surface the same graph as live runs. -/
theorem c5_amended_ignores_context (idf : IdentifierFactory)
    (c c' : GoContext) (types : List TypeDefinition) :
    (InjectJsonSerializationTests idf).run c types =
      (InjectJsonSerializationTests idf).run c' types := rfl

/-- C6: the stage never mutates its input.  The loop writes only the
`result` and `errs` components of its state: the input binding `types`
after any run of the loop equals its pre-call value, and the output graph
is assembled in a fresh map that starts empty. -/
theorem c6_no_input_mutation (idf : IdentifierFactory)
    (types pending : List TypeDefinition) (s : StageState) :
    (injectLoop idf pending s).types = s.types ∧
    (injectLoop idf types (initState types)).types = types :=
  ⟨injectLoop_types idf pending s, injectLoop_types idf types _⟩

/-- C7: for an object or resource declaration the context value threaded
through the visitor is the declaration's own name: the synthesized test
case is built from exactly that enclosing identifier (it is its `subject`
and names its test) and appended to a copy of the declaration; a naming
failure is likewise recorded against that same identifier. -/
theorem c7_context_is_declaration_name (idf : IdentifierFactory)
    (n : TypeName) (props : List (String × AType)) (sp st : AType)
    (tsO tsR : List TestCase) :
    AddTestTo idf { name := n, defType := .object props tsO } =
      (match idf.createTestName n with
       | some tn => .ok { name := n,
                          defType := .object props
                            (tsO ++ [{ subject := n, testName := tn }]) }
       | none => .error { id := n, cause := failCause n }) ∧
    AddTestTo idf { name := n, defType := .resource sp st tsR } =
      (match idf.createTestName n with
       | some tn => .ok { name := n,
                          defType := .resource sp st
                            (tsR ++ [{ subject := n, testName := tn }]) }
       | none => .error { id := n, cause := failCause n }) := by
  constructor <;>
    · unfold AddTestTo VisitDefinition visitType NewJSONSerializationTestCase
      cases idf.createTestName n <;> simp

end Pipeline

namespace TestCommon

theorem lookup_headerDel_self (k : String) (h : List (String × List String)) :
    Pipeline.assocLookup k (headerDel k h) = none := by
  induction h with
  | nil => rfl
  | cons kv rest ih =>
    by_cases hk : kv.1 = k
    · simpa [headerDel, hk] using ih
    · simpa [headerDel, hk, Pipeline.assocLookup] using ih

theorem lookup_headerDel_other {k k' : String} (hne : k ≠ k')
    (h : List (String × List String)) :
    Pipeline.assocLookup k (headerDel k' h) = Pipeline.assocLookup k h := by
  induction h with
  | nil => rfl
  | cons kv rest ih =>
    by_cases h1 : kv.1 = k'
    · have hk : kv.1 ≠ k := fun hc => hne (hc ▸ h1)
      simp only [headerDel, List.filter_cons] at ih ⊢
      simp [h1, hk, Pipeline.assocLookup, ih, Ne.symm hne]
    · by_cases h2 : kv.1 = k
      · simp only [headerDel, List.filter_cons] at ih ⊢
        simp [h1, h2, Pipeline.assocLookup, hne]
      · simp only [headerDel, List.filter_cons] at ih ⊢
        simp [h1, h2, Pipeline.assocLookup, ih]

/-- C8 (counterexample): `hideRecordingData` is not idempotent.  On the
input below the first pass consumes the date together with the following
`x7Z` through the optional fractional-seconds group, leaving `5Z` behind
the replacement date; the second pass then matches the replacement date
together with that `5Z` and collapses them, producing a different
string. -/
theorem c8_idempotent_counterexample :
    hideRecordingData "2020-01-01T00:00:00x7Z5Z" = "2001-02-03T04:05:06Z5Z" ∧
    hideRecordingData "2001-02-03T04:05:06Z5Z" = "2001-02-03T04:05:06Z" ∧
    hideRecordingData (hideRecordingData "2020-01-01T00:00:00x7Z5Z") ≠
      hideRecordingData "2020-01-01T00:00:00x7Z5Z" := by
  refine ⟨rfl, rfl, ?_⟩
  decide

/-- C8 (amended): `hideRecordingData` is not idempotent on all strings —
a date match whose optional group swallowed trailing text can recombine
with what follows on a second pass (see the counterexample).  What does
hold is the claim's supporting facts about the replacement tokens: the
fixed replacement date is matched by the date pattern and replaced by
itself, and the SSH-key replacement is not matched by the SSH-key pattern,
so both replacement tokens are fixed points of `hideRecordingData`. -/
theorem c8_amended_replacement_fixed_points :
    hideRecordingData "2001-02-03T04:05:06Z" = "2001-02-03T04:05:06Z" ∧
    hideRecordingData "ssh-rsa {KEY}" = "ssh-rsa {KEY}" ∧
    hideDates "2001-02-03T04:05:06Z" = "2001-02-03T04:05:06Z" ∧
    hideSSHKeys "ssh-rsa {KEY}" = "ssh-rsa {KEY}" :=
  ⟨rfl, rfl, rfl, rfl⟩

/-- C9: `MakeARMId` panics (modelled as `none`) exactly when its params
list is empty or of odd length; on every non-empty even-length params list
it returns the ARM identifier assembled from the subscription, resource
group, provider and the slash-joined params. -/
theorem c9_make_arm_id (sub rg provider : String) (params : List String) :
    (MakeARMId sub rg provider params = none ↔
      params = [] ∨ params.length % 2 = 1) ∧
    (params ≠ [] → params.length % 2 = 0 →
      MakeARMId sub rg provider params =
        some ("/subscriptions/" ++ sub ++ "/resourceGroups/" ++ rg ++
          "/providers/" ++ provider ++ "/" ++
          String.intercalate "/" params)) := by
  refine ⟨⟨?_, ?_⟩, ?_⟩
  · intro h
    by_cases h0 : params.length = 0
    · exact Or.inl (List.length_eq_zero.mp h0)
    · right
      unfold MakeARMId at h
      rw [if_neg h0] at h
      by_cases h1 : params.length % 2 = 0
      · have hb : (params.length % 2 != 0) = false := by simp [h1]
        rw [hb] at h
        simp at h
      · omega
  · intro h
    rcases h with h | h
    · subst h
      rfl
    · unfold MakeARMId
      have h0 : ¬ params.length = 0 := by
        intro hz
        rw [hz] at h
        simp at h
      rw [if_neg h0]
      have h1 : (params.length % 2 != 0) = true := by
        simp
        omega
      rw [if_pos h1]
  · intro hne hev
    unfold MakeARMId
    have h0 : ¬ params.length = 0 :=
      fun hz => hne (List.length_eq_zero.mp hz)
    rw [if_neg h0]
    have h1 : ¬ ((params.length % 2 != 0) = true) := by
      simp [hev]
    rw [if_neg h1]

/-- Witness for C9 at a concrete non-empty even-length params list. -/
theorem c9_make_arm_id_witness :
    MakeARMId "sub" "rg" "Microsoft.Storage" ["storageAccounts", "acct"] =
      some "/subscriptions/sub/resourceGroups/rg/providers/Microsoft.Storage/storageAccounts/acct" :=
  (c9_make_arm_id "sub" "rg" "Microsoft.Storage"
    ["storageAccounts", "acct"]).2 (by decide) (by decide)

/-- C10 (counterexample): the save filter deletes the Authorization header
only from the stored request; an interaction whose response carries an
Authorization header keeps it after filtering, so a saved cassette
interaction can still contain an Authorization header. -/
theorem c10_save_filter_counterexample :
    Pipeline.assocLookup "Authorization"
      ((saveFilter "xyz" leakInteraction).response.headers) =
      some ["leak"] := rfl

theorem mem_headerDel {kv : String × List String} {k : String}
    {h : List (String × List String)} (hm : kv ∈ headerDel k h) : kv ∈ h :=
  (List.mem_filter.mp hm).1

theorem mem_headerMapValues {kv : String × List String} {f : String → String}
    {h : List (String × List String)} (hm : kv ∈ headerMapValues f h) :
    ∃ vs, (kv.1, vs) ∈ h ∧ kv.2 = vs.map f := by
  obtain ⟨a, ha, he⟩ := List.mem_map.mp hm
  refine ⟨a.2, ?_, ?_⟩
  · have h1 : kv.1 = a.1 := by rw [← he]
    rw [h1, Prod.mk.eta]
    exact ha
  · rw [← he]

/-- C10 (amended): the save filter removes the Authorization header from
the stored request — the filtered request's headers never contain an
Authorization key, whatever interaction and subscription ID are given —
and applies the subscription-ID replacement to every scrub target: the
request body and the response body (each additionally put through the
recording scrub), the request URL, and every request and response header
value (any header pair that survives the deletions is the
subscription-scrubbed image of an original pair with the same key).  The
response's headers, by contrast, are not scrubbed of Authorization. -/
theorem c10_amended_save_filter_scrub (sub : String) (i : Interaction) :
    Pipeline.assocLookup "Authorization"
      ((saveFilter sub i).request.headers) = none ∧
    (saveFilter sub i).request.body =
      hideRecordingData (hideSubID sub i.request.body) ∧
    (saveFilter sub i).request.url = hideSubID sub i.request.url ∧
    (saveFilter sub i).response.body =
      hideRecordingData (hideSubID sub i.response.body) ∧
    (∀ kv ∈ (saveFilter sub i).request.headers,
      ∃ vs, (kv.1, vs) ∈ i.request.headers ∧
        kv.2 = vs.map (hideSubID sub)) ∧
    (∀ kv ∈ (saveFilter sub i).response.headers,
      ∃ vs, (kv.1, vs) ∈ i.response.headers ∧
        kv.2 = vs.map (hideSubID sub)) := by
  refine ⟨?_, rfl, rfl, rfl, ?_, ?_⟩
  · show Pipeline.assocLookup "Authorization"
      (headerDel "User-Agent" (headerDel "Authorization"
        (headerMapValues (hideSubID sub) i.request.headers))) = none
    rw [lookup_headerDel_other (by decide)]
    exact lookup_headerDel_self "Authorization" _
  · intro kv hm
    exact mem_headerMapValues (mem_headerDel (mem_headerDel hm))
  · intro kv hm
    exact mem_headerMapValues (mem_headerDel (mem_headerDel (mem_headerDel
      (mem_headerDel (mem_headerDel (mem_headerDel hm))))))

/-- Witness for the amended C10 theorem at a concrete interaction: the
surviving response Authorization value is the subscription-scrubbed image
of the original one. -/
theorem c10_amended_save_filter_scrub_witness :
    ∃ vs, (("Authorization" : String), vs) ∈
        leakInteraction.response.headers ∧
      (["leak"] : List String) = vs.map (hideSubID "xyz") :=
  (c10_amended_save_filter_scrub "xyz" leakInteraction).2.2.2.2.2
    ("Authorization", ["leak"]) (List.mem_singleton.mpr rfl)

end TestCommon
